import Mathlib

/-!
mpr-metal: tape clauses, opcodes and interval choice.

A verification development over a shallow embedding of

* `mpr/opcode.h`  : the `mpr::Opcode` enumeration,
* `mpr/clause.h`  : the `TapeClause` record and the accessor macros
  `OP`, `I_OUT`, `I_LHS`, `I_RHS`, `IMM`, `JUMP_TARGET`,
* `mpr/interval.h`: the `Interval` constructors and accessors, and the
  declared `min` / `max` with a choice out-parameter.

Conventions of the embedding.

* A clause is "a 64-bit value" (clause.h, line 15).  It is a natural number
  below `2 ^ 64`; the byte at address offset `k` from the clause pointer is
  bits `8k .. 8k+7` of that value (little-endian, as on every target of the
  Metal port).
* A `float` stored in a clause is represented by its 32-bit pattern: the
  clause layer never computes with it.
* In the interval layer `Interval` is built over any carrier of values.  A
  `float` is `FloatVal F`: NaN, or a number of a totally ordered carrier `F`
  (finite or infinite); a comparison with NaN on either side is false.  The
  statements about `min` and `max` assume `lower <= upper` and membership,
  which no NaN satisfies, and are stated over the numbers `F`.
-/

namespace mpr

/-! ## opcode.h -/

/-- The enumerators of `enum Opcode` (opcode.h, lines 17-55). -/
inductive Opcode where
  | GPU_OP_INVALID
  | GPU_OP_JUMP
  | GPU_OP_SQUARE_LHS
  | GPU_OP_SQRT_LHS
  | GPU_OP_NEG_LHS
  | GPU_OP_SIN_LHS
  | GPU_OP_COS_LHS
  | GPU_OP_ASIN_LHS
  | GPU_OP_ACOS_LHS
  | GPU_OP_ATAN_LHS
  | GPU_OP_EXP_LHS
  | GPU_OP_ABS_LHS
  | GPU_OP_LOG_LHS
  | GPU_OP_ADD_LHS_IMM
  | GPU_OP_ADD_LHS_RHS
  | GPU_OP_MUL_LHS_IMM
  | GPU_OP_MUL_LHS_RHS
  | GPU_OP_MIN_LHS_IMM
  | GPU_OP_MIN_LHS_RHS
  | GPU_OP_MAX_LHS_IMM
  | GPU_OP_MAX_LHS_RHS
  | GPU_OP_SUB_LHS_IMM
  | GPU_OP_SUB_IMM_RHS
  | GPU_OP_SUB_LHS_RHS
  | GPU_OP_DIV_LHS_IMM
  | GPU_OP_DIV_IMM_RHS
  | GPU_OP_DIV_LHS_RHS
  | GPU_OP_COPY_IMM
  | GPU_OP_COPY_LHS
  | GPU_OP_COPY_RHS
  deriving DecidableEq, Repr

/-- The blocks in which opcode.h writes the enumerators: the two leading
enumerators (`GPU_OP_INVALID = 0`, and `GPU_OP_JUMP` with its "meta-op"
comment), the block of lines 21-31, and the three blocks headed by the
comments "Commutative opcodes", "Non-commutative opcodes" and "Copy-only
opcodes". -/
inductive Block where
  | invalid
  | metaOp
  | unary
  | commutative
  | nonCommutative
  | copyOnly
  deriving DecidableEq, Repr

/-- One enumerator line of opcode.h: the enumerator, the block it stands in,
its explicit initialiser (only `GPU_OP_INVALID = 0` has one) and the number
written in its trailing comment (lines 21-54 have one). -/
structure Enumerator where
  op : Opcode
  block : Block
  initialiser : Option Nat
  comment : Option Nat
  deriving DecidableEq, Repr

open Opcode in
/-- The body of `enum Opcode`, line by line, in source order. -/
def enumerators : List Enumerator :=
  [ ⟨GPU_OP_INVALID, .invalid, some 0, none⟩,
    ⟨GPU_OP_JUMP, .metaOp, none, none⟩,
    ⟨GPU_OP_SQUARE_LHS, .unary, none, some 2⟩,
    ⟨GPU_OP_SQRT_LHS, .unary, none, some 3⟩,
    ⟨GPU_OP_NEG_LHS, .unary, none, some 4⟩,
    ⟨GPU_OP_SIN_LHS, .unary, none, some 5⟩,
    ⟨GPU_OP_COS_LHS, .unary, none, some 6⟩,
    ⟨GPU_OP_ASIN_LHS, .unary, none, some 7⟩,
    ⟨GPU_OP_ACOS_LHS, .unary, none, some 8⟩,
    ⟨GPU_OP_ATAN_LHS, .unary, none, some 9⟩,
    ⟨GPU_OP_EXP_LHS, .unary, none, some 10⟩,
    ⟨GPU_OP_ABS_LHS, .unary, none, some 11⟩,
    ⟨GPU_OP_LOG_LHS, .unary, none, some 12⟩,
    ⟨GPU_OP_ADD_LHS_IMM, .commutative, none, some 13⟩,
    ⟨GPU_OP_ADD_LHS_RHS, .commutative, none, some 14⟩,
    ⟨GPU_OP_MUL_LHS_IMM, .commutative, none, some 15⟩,
    ⟨GPU_OP_MUL_LHS_RHS, .commutative, none, some 16⟩,
    ⟨GPU_OP_MIN_LHS_IMM, .commutative, none, some 17⟩,
    ⟨GPU_OP_MIN_LHS_RHS, .commutative, none, some 18⟩,
    ⟨GPU_OP_MAX_LHS_IMM, .commutative, none, some 19⟩,
    ⟨GPU_OP_MAX_LHS_RHS, .commutative, none, some 20⟩,
    ⟨GPU_OP_SUB_LHS_IMM, .nonCommutative, none, some 21⟩,
    ⟨GPU_OP_SUB_IMM_RHS, .nonCommutative, none, some 22⟩,
    ⟨GPU_OP_SUB_LHS_RHS, .nonCommutative, none, some 23⟩,
    ⟨GPU_OP_DIV_LHS_IMM, .nonCommutative, none, some 24⟩,
    ⟨GPU_OP_DIV_IMM_RHS, .nonCommutative, none, some 25⟩,
    ⟨GPU_OP_DIV_LHS_RHS, .nonCommutative, none, some 26⟩,
    ⟨GPU_OP_COPY_IMM, .copyOnly, none, some 27⟩,
    ⟨GPU_OP_COPY_LHS, .copyOnly, none, some 28⟩,
    ⟨GPU_OP_COPY_RHS, .copyOnly, none, some 29⟩ ]

/-- The rule by which C gives values to enumerators: an enumerator with an
initialiser takes it, any other takes the previous value plus one (zero for
the first). -/
def enumValuesFrom : Nat → List Enumerator → List (Opcode × Nat)
  | _, [] => []
  | next, e :: es =>
    let v := e.initialiser.getD next
    (e.op, v) :: enumValuesFrom (v + 1) es

/-- Every enumerator with the value the compiler gives it. -/
def enumValues : List (Opcode × Nat) := enumValuesFrom 0 enumerators

/-- The integer value of an enumerator. -/
def Opcode.toNat (o : Opcode) : Nat := (enumValues.lookup o).getD 0

/-- The enumerator with a given integer value, if there is one. -/
def Opcode.ofNat? (n : Nat) : Option Opcode :=
  (enumValues.find? (fun p => p.2 == n)).map Prod.fst

/-- The block of opcode.h an enumerator is written in. -/
def Opcode.block (o : Opcode) : Block :=
  ((enumerators.find? (fun e => e.op == o)).map Enumerator.block).getD .invalid

/-- The enumerators of one block, in source order. -/
def blockOps (b : Block) : List Opcode :=
  (enumerators.filter (fun e => e.block == b)).map Enumerator.op

/-- The operation an enumerator names: the part of its identifier between
`GPU_OP_` and the operand suffix. -/
inductive Mnemonic where
  | INVALID | JUMP
  | SQUARE | SQRT | NEG | SIN | COS | ASIN | ACOS | ATAN | EXP | ABS | LOG
  | ADD | MUL | MIN | MAX
  | SUB | DIV
  | COPY
  deriving DecidableEq, Repr

/-- The operand names that occur in enumerator identifiers. -/
inductive Operand where
  | LHS | RHS | IMM
  deriving DecidableEq, Repr

open Opcode Mnemonic in
/-- The operation part of each enumerator's identifier. -/
def Opcode.mnemonic : Opcode → Mnemonic
  | GPU_OP_INVALID => INVALID
  | GPU_OP_JUMP => JUMP
  | GPU_OP_SQUARE_LHS => SQUARE
  | GPU_OP_SQRT_LHS => SQRT
  | GPU_OP_NEG_LHS => NEG
  | GPU_OP_SIN_LHS => SIN
  | GPU_OP_COS_LHS => COS
  | GPU_OP_ASIN_LHS => ASIN
  | GPU_OP_ACOS_LHS => ACOS
  | GPU_OP_ATAN_LHS => ATAN
  | GPU_OP_EXP_LHS => EXP
  | GPU_OP_ABS_LHS => ABS
  | GPU_OP_LOG_LHS => LOG
  | GPU_OP_ADD_LHS_IMM => ADD
  | GPU_OP_ADD_LHS_RHS => ADD
  | GPU_OP_MUL_LHS_IMM => MUL
  | GPU_OP_MUL_LHS_RHS => MUL
  | GPU_OP_MIN_LHS_IMM => MIN
  | GPU_OP_MIN_LHS_RHS => MIN
  | GPU_OP_MAX_LHS_IMM => MAX
  | GPU_OP_MAX_LHS_RHS => MAX
  | GPU_OP_SUB_LHS_IMM => SUB
  | GPU_OP_SUB_IMM_RHS => SUB
  | GPU_OP_SUB_LHS_RHS => SUB
  | GPU_OP_DIV_LHS_IMM => DIV
  | GPU_OP_DIV_IMM_RHS => DIV
  | GPU_OP_DIV_LHS_RHS => DIV
  | GPU_OP_COPY_IMM => COPY
  | GPU_OP_COPY_LHS => COPY
  | GPU_OP_COPY_RHS => COPY

open Opcode Operand in
/-- The operand suffix of each enumerator's identifier, in the order it is
written (`_LHS_IMM` is `[LHS, IMM]`, `_IMM_RHS` is `[IMM, RHS]`). -/
def Opcode.operands : Opcode → List Operand
  | GPU_OP_INVALID => []
  | GPU_OP_JUMP => []
  | GPU_OP_SQUARE_LHS => [LHS]
  | GPU_OP_SQRT_LHS => [LHS]
  | GPU_OP_NEG_LHS => [LHS]
  | GPU_OP_SIN_LHS => [LHS]
  | GPU_OP_COS_LHS => [LHS]
  | GPU_OP_ASIN_LHS => [LHS]
  | GPU_OP_ACOS_LHS => [LHS]
  | GPU_OP_ATAN_LHS => [LHS]
  | GPU_OP_EXP_LHS => [LHS]
  | GPU_OP_ABS_LHS => [LHS]
  | GPU_OP_LOG_LHS => [LHS]
  | GPU_OP_ADD_LHS_IMM => [LHS, IMM]
  | GPU_OP_ADD_LHS_RHS => [LHS, RHS]
  | GPU_OP_MUL_LHS_IMM => [LHS, IMM]
  | GPU_OP_MUL_LHS_RHS => [LHS, RHS]
  | GPU_OP_MIN_LHS_IMM => [LHS, IMM]
  | GPU_OP_MIN_LHS_RHS => [LHS, RHS]
  | GPU_OP_MAX_LHS_IMM => [LHS, IMM]
  | GPU_OP_MAX_LHS_RHS => [LHS, RHS]
  | GPU_OP_SUB_LHS_IMM => [LHS, IMM]
  | GPU_OP_SUB_IMM_RHS => [IMM, RHS]
  | GPU_OP_SUB_LHS_RHS => [LHS, RHS]
  | GPU_OP_DIV_LHS_IMM => [LHS, IMM]
  | GPU_OP_DIV_IMM_RHS => [IMM, RHS]
  | GPU_OP_DIV_LHS_RHS => [LHS, RHS]
  | GPU_OP_COPY_IMM => [IMM]
  | GPU_OP_COPY_LHS => [LHS]
  | GPU_OP_COPY_RHS => [RHS]

/-- The identifier of an enumerator read as operation and operand suffix. -/
def Opcode.form (o : Opcode) : Mnemonic × List Operand := (o.mnemonic, o.operands)

/-- An opcode is unary when it applies a function to one register operand:
its identifier has a single operand suffix and it is not a copy. -/
def Opcode.isUnary (o : Opcode) : Bool :=
  o.operands.length == 1 && o.mnemonic != Mnemonic.COPY

/-- The unary opcodes, in source order. -/
def unaryOpcodes : List Opcode :=
  (enumerators.map Enumerator.op).filter Opcode.isUnary

end mpr

namespace MprMetal

/-! ## clause.h

clause.h and interval.h declare their names at global scope; they are kept
in one namespace here because Mathlib already has a global `Interval`. -/

/-- The C types that clause.h uses. -/
inductive CType where
  | uint8_t
  | int32_t
  | float
  deriving DecidableEq, Repr

/-- Size in bytes of each type. -/
def CType.sizeof : CType → Nat
  | .uint8_t => 1
  | .int32_t => 4
  | .float => 4

/-- Alignment in bytes of each type. -/
def CType.alignof : CType → Nat
  | .uint8_t => 1
  | .int32_t => 4
  | .float => 4

/-- The member names of `struct TapeClause`. -/
inductive Member where
  | op | out | lhs | rhs | imm
  deriving DecidableEq, Repr

/-- The member declarations of `struct TapeClause` (clause.h, lines 16-22),
in declaration order. -/
def TapeClause.members : List (Member × CType) :=
  [(.op, .uint8_t), (.out, .uint8_t), (.lhs, .uint8_t), (.rhs, .uint8_t), (.imm, .float)]

/-- The least multiple of `a` that is at least `n`. -/
def alignUp (n a : Nat) : Nat := (n + a - 1) / a * a

/-- Layout of a standard-layout struct: every member is placed at the first
offset, at or after the end of the previous member, that its alignment
divides. -/
def layoutFrom : Nat → List (Member × CType) → List (Member × Nat)
  | _, [] => []
  | cur, (m, t) :: ms =>
    let o := alignUp cur t.alignof
    (m, o) :: layoutFrom (o + t.sizeof) ms

/-- Byte offset of a member of `TapeClause`. -/
def TapeClause.offsetof (m : Member) : Nat :=
  ((layoutFrom 0 TapeClause.members).lookup m).getD 0

/-- Declared type of a member of `TapeClause`. -/
def TapeClause.typeof (m : Member) : CType :=
  (TapeClause.members.lookup m).getD .uint8_t

/-- A run of bytes inside a clause: where an lvalue lives. -/
structure Place where
  off : Nat
  size : Nat
  deriving DecidableEq, Repr

/-- The byte offsets a place occupies. -/
def Place.bytes (p : Place) : List Nat := List.range' p.off p.size

/-- The place of the lvalue `((T*)(d))[i]`: element `i` of an array of `T`
that starts at the clause pointer `d`. -/
def elem (t : CType) (i : Nat) : Place := ⟨t.sizeof * i, t.sizeof⟩

/-- The place of a member of the `TapeClause` record. -/
def TapeClause.place (m : Member) : Place :=
  ⟨TapeClause.offsetof m, (TapeClause.typeof m).sizeof⟩

/-- Reading a place of the clause value `d`: its bytes, least significant
first. -/
def read (d : Nat) (p : Place) : Nat := d / 256 ^ p.off % 256 ^ p.size

/-- Assigning `x` to a place of the clause value `d`: the bytes of the place
are replaced by `x` reduced to the width of the place, every other byte is
kept. -/
def write (d : Nat) (p : Place) (x : Nat) : Nat :=
  d - read d p * 256 ^ p.off + x % 256 ^ p.size * 256 ^ p.off

/-- The value of a 32-bit pattern read as a two's complement `int32_t`. -/
def int32OfBits (w : Nat) : Int :=
  if w < 2 ^ 31 then (w : Int) else (w : Int) - 2 ^ 32

/-- The 32-bit two's complement pattern of an integer. -/
def bitsOfInt32 (t : Int) : Nat := (t % 2 ^ 32).toNat

/-- Place of `OP(d)`, that is `((uint8_t*)(d))[0]`. -/
def OP.place : Place := elem .uint8_t 0
/-- Place of `I_OUT(d)`, that is `((uint8_t*)(d))[1]`. -/
def I_OUT.place : Place := elem .uint8_t 1
/-- Place of `I_LHS(d)`, that is `((uint8_t*)(d))[2]`. -/
def I_LHS.place : Place := elem .uint8_t 2
/-- Place of `I_RHS(d)`, that is `((uint8_t*)(d))[3]`. -/
def I_RHS.place : Place := elem .uint8_t 3
/-- Place of `IMM(d)`, that is `((float*)(d))[1]`. -/
def IMM.place : Place := elem .float 1
/-- Place of `JUMP_TARGET(d)`, that is `((int32_t*)(d))[1]`. -/
def JUMP_TARGET.place : Place := elem .int32_t 1

/-- Reading `OP(d)`. -/
def OP (d : Nat) : Nat := read d OP.place
/-- Reading `I_OUT(d)`. -/
def I_OUT (d : Nat) : Nat := read d I_OUT.place
/-- Reading `I_LHS(d)`. -/
def I_LHS (d : Nat) : Nat := read d I_LHS.place
/-- Reading `I_RHS(d)`. -/
def I_RHS (d : Nat) : Nat := read d I_RHS.place
/-- Reading `IMM(d)`: the bit pattern of the float. -/
def IMM (d : Nat) : Nat := read d IMM.place
/-- Reading `JUMP_TARGET(d)`: a signed 32-bit integer. -/
def JUMP_TARGET (d : Nat) : Int := int32OfBits (read d JUMP_TARGET.place)

/-- The assignment `OP(d) = v`. -/
def OP.assign (d v : Nat) : Nat := write d OP.place v
/-- The assignment `I_OUT(d) = v`. -/
def I_OUT.assign (d v : Nat) : Nat := write d I_OUT.place v
/-- The assignment `I_LHS(d) = v`. -/
def I_LHS.assign (d v : Nat) : Nat := write d I_LHS.place v
/-- The assignment `I_RHS(d) = v`. -/
def I_RHS.assign (d v : Nat) : Nat := write d I_RHS.place v
/-- The assignment `IMM(d) = w`, with `w` the bit pattern of the float. -/
def IMM.assign (d w : Nat) : Nat := write d IMM.place w
/-- The assignment `JUMP_TARGET(d) = t`. -/
def JUMP_TARGET.assign (d : Nat) (t : Int) : Nat :=
  write d JUMP_TARGET.place (bitsOfInt32 t)

/-- The record `struct TapeClause`: four bytes and the bit pattern of a
float. -/
structure TapeClause where
  op : Nat
  out : Nat
  lhs : Nat
  rhs : Nat
  imm : Nat
  deriving DecidableEq, Repr

/-- Every member of the record is a value of its declared type. -/
def TapeClause.WF (c : TapeClause) : Prop :=
  c.op < 256 ∧ c.out < 256 ∧ c.lhs < 256 ∧ c.rhs < 256 ∧ c.imm < 2 ^ 32

instance (c : TapeClause) : Decidable c.WF := by
  unfold TapeClause.WF; infer_instance

/-- The 64-bit value that holds a `TapeClause`: each member written at its
place. -/
def TapeClause.toBits (c : TapeClause) : Nat :=
  write (write (write (write (write 0
    (TapeClause.place .op) c.op)
    (TapeClause.place .out) c.out)
    (TapeClause.place .lhs) c.lhs)
    (TapeClause.place .rhs) c.rhs)
    (TapeClause.place .imm) c.imm

/-- The `TapeClause` held by a 64-bit value: each member read at its place. -/
def TapeClause.ofBits (d : Nat) : TapeClause :=
  ⟨read d (TapeClause.place .op), read d (TapeClause.place .out),
   read d (TapeClause.place .lhs), read d (TapeClause.place .rhs),
   read d (TapeClause.place .imm)⟩

/-- End offset of the last member when the members are laid out from `cur`. -/
def layoutEnd : Nat → List (Member × CType) → Nat
  | cur, [] => cur
  | cur, (_, t) :: ms => layoutEnd (alignUp cur t.alignof + t.sizeof) ms

/-- The size of `struct TapeClause`: the end of its last member, rounded up to
the largest member alignment. -/
def TapeClause.sizeof : Nat :=
  alignUp (layoutEnd 0 TapeClause.members)
    ((TapeClause.members.map (fun m => m.2.alignof)).foldl max 1)

/-- How the opcode byte of a clause reads against `enum Opcode`: the
invalid sentinel, the jump meta-op, an operation, or a value that is no
enumerator (a corrupt tape). -/
inductive ClauseKind where
  | invalid
  | jump
  | operation
  | corrupt
  deriving DecidableEq, Repr

/-- The kind of clause an opcode byte announces. -/
def opKind (n : Nat) : ClauseKind :=
  match mpr.Opcode.ofNat? n with
  | none => .corrupt
  | some .GPU_OP_INVALID => .invalid
  | some .GPU_OP_JUMP => .jump
  | some _ => .operation

/-- The kind of a clause: decided by `OP(d)`. -/
def clauseKind (d : Nat) : ClauseKind := opKind (OP d)

/-! ## interval.h -/

/-- The values of a `float` as far as comparisons go: NaN, or a number
(finite or infinite) of a totally ordered carrier `F`. -/
inductive FloatVal (F : Type) where
  | nan
  | num (x : F)
  deriving DecidableEq, Repr

/-- The comparison `a <= b` of two floats: false as soon as one is NaN. -/
def FloatVal.le {F : Type} [LinearOrder F] : FloatVal F → FloatVal F → Prop
  | .num x, .num y => x ≤ y
  | .num _, .nan => False
  | .nan, _ => False

/-- The comparison `a < b` of two floats: false as soon as one is NaN. -/
def FloatVal.lt {F : Type} [LinearOrder F] : FloatVal F → FloatVal F → Prop
  | .num x, .num y => x < y
  | .num _, .nan => False
  | .nan, _ => False

instance {F : Type} [LinearOrder F] : LE (FloatVal F) := ⟨FloatVal.le⟩

instance {F : Type} [LinearOrder F] : LT (FloatVal F) := ⟨FloatVal.lt⟩

instance {F : Type} [LinearOrder F] : (a b : FloatVal F) → Decidable (a ≤ b)
  | .num x, .num y => inferInstanceAs (Decidable (x ≤ y))
  | .num _, .nan => isFalse (fun h => h)
  | .nan, _ => isFalse (fun h => h)

instance {F : Type} [LinearOrder F] : (a b : FloatVal F) → Decidable (a < b)
  | .num x, .num y => inferInstanceAs (Decidable (x < y))
  | .num _, .nan => isFalse (fun h => h)
  | .nan, _ => isFalse (fun h => h)

/-- The type `simd::float2` over the carrier `F` of float values. -/
structure float2 (F : Type) where
  x : F
  y : F
  deriving DecidableEq, Repr

/-- The type `struct Interval` (interval.h, lines 18-33): one `float2`. -/
structure Interval (F : Type) where
  v : float2 F
  deriving DecidableEq, Repr

/-- The constructor `explicit Interval(float f) : v(simd::float2{f, f})`. -/
def Interval.ofFloat {F : Type} (f : F) : Interval F := ⟨⟨f, f⟩⟩

/-- The constructor `Interval(float a, float b) : v(simd::float2{a, b})`. -/
def Interval.ofPair {F : Type} (a b : F) : Interval F := ⟨⟨a, b⟩⟩

/-- The accessor `upper() const { return v.y; }`. -/
def Interval.upper {F : Type} (i : Interval F) : F := i.v.y

/-- The accessor `lower() const { return v.x; }`. -/
def Interval.lower {F : Type} (i : Interval F) : F := i.v.x

/-- The invariant `lower <= upper`. -/
def Interval.WF {F : Type} [LinearOrder F] (i : Interval F) : Prop :=
  i.lower ≤ i.upper

/-- The scalar `a` lies in the interval. -/
def Interval.contains {F : Type} [LinearOrder F] (i : Interval F) (a : F) : Prop :=
  i.lower ≤ a ∧ a ≤ i.upper

/-- The two ranges overlap: they have a point in common. -/
def Interval.overlaps {F : Type} [LinearOrder F] (x y : Interval F) : Prop :=
  x.lower ≤ y.upper ∧ y.lower ≤ x.upper

instance {F : Type} [LinearOrder F] (i : Interval F) : Decidable i.WF := by
  unfold Interval.WF; infer_instance

instance {F : Type} [LinearOrder F] (i : Interval F) (a : F) : Decidable (i.contains a) := by
  unfold Interval.contains; infer_instance

instance {F : Type} [LinearOrder F] (x y : Interval F) : Decidable (x.overlaps y) := by
  unfold Interval.overlaps; infer_instance

/-- The values of the `choice` out-parameter of `min` and `max`. -/
inductive Choice where
  | LHS_ONLY
  | RHS_ONLY
  | BOTH
  deriving DecidableEq, Repr

/-- Modelled from the spec: the `choice` that
`min(Interval x, Interval y, int& choice)` sets.  interval.h only declares the
function (line 49); its body is not among the sources.  The spec (4.1):
"`LHS_ONLY` if `x.upper < y.lower` (x always wins), `RHS_ONLY` if the
reverse, else `BOTH`". -/
def Interval.min_choice {F : Type} [LinearOrder F] (x y : Interval F) : Choice :=
  if x.upper < y.lower then .LHS_ONLY
  else if y.upper < x.lower then .RHS_ONLY
  else .BOTH

/-- Modelled from the spec: the `choice` that
`max(Interval x, Interval y, int& choice)` sets.  interval.h only declares the
function (line 51); its body is not among the sources.  The spec gives
`LHS_ONLY` one meaning for `min` and `max`: "x always wins" (4.1), the choice
trace records "lhs-selected" (3), and pruning rewrites a `LHS_ONLY` clause to
`COPY_LHS` (4.2).  For `max` the operand that always wins is the one whose
range lies wholly above the other, so the choice is `LHS_ONLY` if
`y.upper < x.lower`, `RHS_ONLY` if the reverse, else `BOTH`. -/
def Interval.max_choice {F : Type} [LinearOrder F] (x y : Interval F) : Choice :=
  if y.upper < x.lower then .LHS_ONLY
  else if x.upper < y.lower then .RHS_ONLY
  else .BOTH

/-! ## Reading and writing: the accessors as arithmetic -/

theorem OP_eq (d : Nat) : OP d = d % 256 := by
  simp [OP, OP.place, elem, read, CType.sizeof]

theorem I_OUT_eq (d : Nat) : I_OUT d = d / 256 % 256 := by
  simp [I_OUT, I_OUT.place, elem, read, CType.sizeof]

theorem I_LHS_eq (d : Nat) : I_LHS d = d / 65536 % 256 := by
  simp [I_LHS, I_LHS.place, elem, read, CType.sizeof]

theorem I_RHS_eq (d : Nat) : I_RHS d = d / 16777216 % 256 := by
  simp [I_RHS, I_RHS.place, elem, read, CType.sizeof]

theorem IMM_eq (d : Nat) : IMM d = d / 4294967296 % 4294967296 := by
  simp [IMM, IMM.place, elem, read, CType.sizeof]

theorem JUMP_TARGET_eq (d : Nat) :
    JUMP_TARGET d = int32OfBits (d / 4294967296 % 4294967296) := by
  simp [JUMP_TARGET, JUMP_TARGET.place, elem, read, CType.sizeof]

theorem OP_assign_eq (d v : Nat) : OP.assign d v = d - d % 256 + v % 256 := by
  simp [OP.assign, OP.place, elem, read, write, CType.sizeof]

theorem I_OUT_assign_eq (d v : Nat) :
    I_OUT.assign d v = d - d / 256 % 256 * 256 + v % 256 * 256 := by
  simp [I_OUT.assign, I_OUT.place, elem, read, write, CType.sizeof]

theorem I_LHS_assign_eq (d v : Nat) :
    I_LHS.assign d v = d - d / 65536 % 256 * 65536 + v % 256 * 65536 := by
  simp [I_LHS.assign, I_LHS.place, elem, read, write, CType.sizeof]

theorem I_RHS_assign_eq (d v : Nat) :
    I_RHS.assign d v = d - d / 16777216 % 256 * 16777216 + v % 256 * 16777216 := by
  simp [I_RHS.assign, I_RHS.place, elem, read, write, CType.sizeof]

theorem IMM_assign_eq (d w : Nat) :
    IMM.assign d w =
      d - d / 4294967296 % 4294967296 * 4294967296 + w % 4294967296 * 4294967296 := by
  simp [IMM.assign, IMM.place, elem, read, write, CType.sizeof]

theorem JUMP_TARGET_assign_eq (d : Nat) (t : Int) :
    JUMP_TARGET.assign d t =
      d - d / 4294967296 % 4294967296 * 4294967296
        + bitsOfInt32 t % 4294967296 * 4294967296 := by
  simp [JUMP_TARGET.assign, JUMP_TARGET.place, elem, read, write, CType.sizeof]

theorem int32OfBits_bitsOfInt32 (t : Int) (hlo : -2147483648 ≤ t) (hhi : t < 2147483648) :
    int32OfBits (bitsOfInt32 t) = t := by
  unfold int32OfBits bitsOfInt32
  have h1 : (0 : Int) ≤ t % 2 ^ 32 := Int.emod_nonneg _ (by norm_num)
  have h2 : ((t % 2 ^ 32).toNat : Int) = t % 2 ^ 32 := Int.toNat_of_nonneg h1
  split
  · rename_i h
    have : ((t % 2 ^ 32).toNat : Int) < 2 ^ 31 := by exact_mod_cast h
    omega
  · rename_i h
    have : ¬ ((t % 2 ^ 32).toNat : Int) < 2 ^ 31 := by
      intro hc; apply h; exact_mod_cast hc
    omega

theorem bitsOfInt32_lt (t : Int) : bitsOfInt32 t < 4294967296 := by
  unfold bitsOfInt32
  have h1 : (0 : Int) ≤ t % 2 ^ 32 := Int.emod_nonneg _ (by norm_num)
  have h3 : t % 2 ^ 32 < 2 ^ 32 := Int.emod_lt_of_pos _ (by norm_num)
  omega

theorem int32OfBits_inj (a b : Nat) (ha : a < 4294967296) (hb : b < 4294967296) :
    int32OfBits a = int32OfBits b ↔ a = b := by
  unfold int32OfBits
  constructor
  · intro h
    split at h <;> split at h <;> omega
  · intro h; rw [h]

theorem int32OfBits_range (a : Nat) (ha : a < 4294967296) :
    -2147483648 ≤ int32OfBits a ∧ int32OfBits a < 2147483648 := by
  unfold int32OfBits
  split <;> omega

/-! ## The clause layout -/

/-- C1. The accessor macros read exactly the members of `TapeClause`, in
declaration order: `OP` is byte 0 (member `op`), `I_OUT` byte 1 (`out`),
`I_LHS` byte 2 (`lhs`), `I_RHS` byte 3 (`rhs`) and `IMM` the 32-bit word at
bytes 4..7 (`imm`); the five places are disjoint and together are the 8 bytes
of the clause, so the five reads determine the 64-bit value and every record
is recovered from the value that holds it. -/
theorem clause_accessors_read_record_members :
    (OP.place = TapeClause.place .op ∧ I_OUT.place = TapeClause.place .out ∧
      I_LHS.place = TapeClause.place .lhs ∧ I_RHS.place = TapeClause.place .rhs ∧
      IMM.place = TapeClause.place .imm) ∧
    TapeClause.members.map Prod.fst = [.op, .out, .lhs, .rhs, .imm] ∧
    (OP.place.bytes = [0] ∧ I_OUT.place.bytes = [1] ∧ I_LHS.place.bytes = [2] ∧
      I_RHS.place.bytes = [3] ∧ IMM.place.bytes = [4, 5, 6, 7]) ∧
    (OP.place.bytes ++ I_OUT.place.bytes ++ I_LHS.place.bytes ++ I_RHS.place.bytes
        ++ IMM.place.bytes = List.range TapeClause.sizeof ∧ TapeClause.sizeof = 8) ∧
    (∀ d : Nat, OP d = (TapeClause.ofBits d).op ∧ I_OUT d = (TapeClause.ofBits d).out ∧
      I_LHS d = (TapeClause.ofBits d).lhs ∧ I_RHS d = (TapeClause.ofBits d).rhs ∧
      IMM d = (TapeClause.ofBits d).imm) ∧
    (∀ d : Nat, OP d < 256 ∧ I_OUT d < 256 ∧ I_LHS d < 256 ∧ I_RHS d < 256 ∧
      IMM d < 2 ^ 32) ∧
    (∀ c : TapeClause, c.WF →
      c.toBits < 2 ^ 64 ∧ OP c.toBits = c.op ∧ I_OUT c.toBits = c.out ∧
      I_LHS c.toBits = c.lhs ∧ I_RHS c.toBits = c.rhs ∧ IMM c.toBits = c.imm) ∧
    (∀ d : Nat, d < 2 ^ 64 →
      d = OP d + 2 ^ 8 * I_OUT d + 2 ^ 16 * I_LHS d + 2 ^ 24 * I_RHS d + 2 ^ 32 * IMM d ∧
      (TapeClause.ofBits d).toBits = d) := by
  have hplaces : OP.place = TapeClause.place .op ∧ I_OUT.place = TapeClause.place .out ∧
      I_LHS.place = TapeClause.place .lhs ∧ I_RHS.place = TapeClause.place .rhs ∧
      IMM.place = TapeClause.place .imm := by decide
  obtain ⟨p0, p1, p2, p3, p4⟩ := hplaces
  have hbits : ∀ c : TapeClause, c.toBits =
      c.op % 256 + c.out % 256 * 256 + c.lhs % 256 * 65536 + c.rhs % 256 * 16777216
        + c.imm % 4294967296 * 4294967296 := by
    intro c
    have h : c.toBits = IMM.assign (I_RHS.assign (I_LHS.assign (I_OUT.assign
        (OP.assign 0 c.op) c.out) c.lhs) c.rhs) c.imm := by
      unfold TapeClause.toBits IMM.assign I_RHS.assign I_LHS.assign I_OUT.assign OP.assign
      rw [p0, p1, p2, p3, p4]
    rw [h, IMM_assign_eq, I_RHS_assign_eq, I_LHS_assign_eq, I_OUT_assign_eq, OP_assign_eq]
    omega
  have hof : ∀ d : Nat, TapeClause.ofBits d = ⟨OP d, I_OUT d, I_LHS d, I_RHS d, IMM d⟩ := by
    intro d
    unfold TapeClause.ofBits OP I_OUT I_LHS I_RHS IMM
    rw [p0, p1, p2, p3, p4]
  refine ⟨⟨p0, p1, p2, p3, p4⟩, by decide, by decide, by decide, ?_, ?_, ?_, ?_⟩
  · intro d
    rw [hof d]
    exact ⟨rfl, rfl, rfl, rfl, rfl⟩
  · intro d
    rw [OP_eq, I_OUT_eq, I_LHS_eq, I_RHS_eq, IMM_eq]
    omega
  · intro c hc
    obtain ⟨h0, h1, h2, h3, h4⟩ := hc
    rw [OP_eq, I_OUT_eq, I_LHS_eq, I_RHS_eq, IMM_eq, hbits c]
    omega
  · intro d hd
    rw [hof d, hbits]
    simp only
    rw [OP_eq, I_OUT_eq, I_LHS_eq, I_RHS_eq, IMM_eq]
    omega

/-- C1, at the record `{op = 18, out = 4, lhs = 2, rhs = 3, imm = 0x3F800000}`
and at the 64-bit value `0x3F80000003020412` that holds it. -/
theorem clause_accessors_read_record_members_witness :
    ((⟨18, 4, 2, 3, 0x3F800000⟩ : TapeClause).WF ∧
      OP (TapeClause.toBits ⟨18, 4, 2, 3, 0x3F800000⟩) = 18 ∧
      IMM (TapeClause.toBits ⟨18, 4, 2, 3, 0x3F800000⟩) = 0x3F800000) ∧
    ((0x3F80000003020412 : Nat) < 2 ^ 64 ∧
      (TapeClause.ofBits 0x3F80000003020412).toBits = 0x3F80000003020412) :=
  ⟨⟨by decide,
    (clause_accessors_read_record_members.2.2.2.2.2.2.1 ⟨18, 4, 2, 3, 0x3F800000⟩
      (by decide)).2.1,
    (clause_accessors_read_record_members.2.2.2.2.2.2.1 ⟨18, 4, 2, 3, 0x3F800000⟩
      (by decide)).2.2.2.2.2⟩,
   ⟨by decide, (clause_accessors_read_record_members.2.2.2.2.2.2.2 0x3F80000003020412
      (by decide)).2⟩⟩

/-- C2. `JUMP_TARGET(d)` addresses the same four bytes as `IMM(d)`, bytes
4..7, read as a signed 32-bit integer: the target is the two's complement
reading of the immediate's bit pattern, it and the immediate's pattern
determine each other, no assignment to one of the four byte fields changes
it, and opcode byte, register bytes and target fill the same 8 bytes as the
`TapeClause` record. -/
theorem jump_target_overlays_immediate :
    JUMP_TARGET.place = IMM.place ∧
    JUMP_TARGET.place.bytes = [4, 5, 6, 7] ∧
    IMM.place.bytes = [4, 5, 6, 7] ∧
    (OP.place.bytes ++ I_OUT.place.bytes ++ I_LHS.place.bytes ++ I_RHS.place.bytes
        ++ JUMP_TARGET.place.bytes = List.range TapeClause.sizeof) ∧
    (∀ d : Nat, JUMP_TARGET d = int32OfBits (IMM d)) ∧
    (∀ d : Nat, -2 ^ 31 ≤ JUMP_TARGET d ∧ JUMP_TARGET d < 2 ^ 31) ∧
    (∀ d e : Nat, JUMP_TARGET d = JUMP_TARGET e ↔ IMM d = IMM e) ∧
    (∀ d v : Nat, JUMP_TARGET (OP.assign d v) = JUMP_TARGET d ∧
      JUMP_TARGET (I_OUT.assign d v) = JUMP_TARGET d ∧
      JUMP_TARGET (I_LHS.assign d v) = JUMP_TARGET d ∧
      JUMP_TARGET (I_RHS.assign d v) = JUMP_TARGET d) ∧
    (∀ (d : Nat) (t : Int), JUMP_TARGET.assign d t = IMM.assign d (bitsOfInt32 t)) := by
  have himm : ∀ d : Nat, IMM d < 4294967296 := by
    intro d; rw [IMM_eq]; omega
  have hjt : ∀ d : Nat, JUMP_TARGET d = int32OfBits (IMM d) := by
    intro d; rw [JUMP_TARGET_eq, IMM_eq]
  refine ⟨by decide, by decide, by decide, by decide, hjt, ?_, ?_, ?_, ?_⟩
  · intro d
    have h := int32OfBits_range (IMM d) (himm d)
    rw [hjt d]
    norm_num
    exact h
  · intro d e
    rw [hjt d, hjt e]
    exact int32OfBits_inj _ _ (himm d) (himm e)
  · intro d v
    simp only [JUMP_TARGET_eq, OP_assign_eq, I_OUT_assign_eq, I_LHS_assign_eq,
      I_RHS_assign_eq]
    refine ⟨?_, ?_, ?_, ?_⟩ <;> congr 1 <;> omega
  · intro d t
    rfl

/-- C10. Assignments through the clause accessors round-trip and are
independent: assigning a byte `v` through `OP`, `I_OUT`, `I_LHS` or `I_RHS`
and reading the same accessor gives `v`, the other three byte fields and the
bytes 4..7 (read as `IMM` or as `JUMP_TARGET`) are unchanged; assigning a
signed 32-bit `t` through `JUMP_TARGET` and reading it gives `t` and leaves
`OP`, `I_OUT`, `I_LHS`, `I_RHS` unchanged; the same for a 32-bit pattern
through `IMM`.  A 64-bit value stays a 64-bit value. -/
theorem clause_assign_roundtrip_frame :
    (∀ d v : Nat, v < 256 →
      (OP (OP.assign d v) = v ∧ I_OUT (OP.assign d v) = I_OUT d ∧
        I_LHS (OP.assign d v) = I_LHS d ∧ I_RHS (OP.assign d v) = I_RHS d ∧
        IMM (OP.assign d v) = IMM d ∧ JUMP_TARGET (OP.assign d v) = JUMP_TARGET d) ∧
      (I_OUT (I_OUT.assign d v) = v ∧ OP (I_OUT.assign d v) = OP d ∧
        I_LHS (I_OUT.assign d v) = I_LHS d ∧ I_RHS (I_OUT.assign d v) = I_RHS d ∧
        IMM (I_OUT.assign d v) = IMM d ∧ JUMP_TARGET (I_OUT.assign d v) = JUMP_TARGET d) ∧
      (I_LHS (I_LHS.assign d v) = v ∧ OP (I_LHS.assign d v) = OP d ∧
        I_OUT (I_LHS.assign d v) = I_OUT d ∧ I_RHS (I_LHS.assign d v) = I_RHS d ∧
        IMM (I_LHS.assign d v) = IMM d ∧ JUMP_TARGET (I_LHS.assign d v) = JUMP_TARGET d) ∧
      (I_RHS (I_RHS.assign d v) = v ∧ OP (I_RHS.assign d v) = OP d ∧
        I_OUT (I_RHS.assign d v) = I_OUT d ∧ I_LHS (I_RHS.assign d v) = I_LHS d ∧
        IMM (I_RHS.assign d v) = IMM d ∧ JUMP_TARGET (I_RHS.assign d v) = JUMP_TARGET d)) ∧
    (∀ (d : Nat) (t : Int), -2 ^ 31 ≤ t → t < 2 ^ 31 →
      JUMP_TARGET (JUMP_TARGET.assign d t) = t ∧
      OP (JUMP_TARGET.assign d t) = OP d ∧ I_OUT (JUMP_TARGET.assign d t) = I_OUT d ∧
      I_LHS (JUMP_TARGET.assign d t) = I_LHS d ∧ I_RHS (JUMP_TARGET.assign d t) = I_RHS d) ∧
    (∀ d w : Nat, w < 2 ^ 32 →
      IMM (IMM.assign d w) = w ∧
      OP (IMM.assign d w) = OP d ∧ I_OUT (IMM.assign d w) = I_OUT d ∧
      I_LHS (IMM.assign d w) = I_LHS d ∧ I_RHS (IMM.assign d w) = I_RHS d) ∧
    (∀ (d v : Nat) (t : Int), d < 2 ^ 64 →
      OP.assign d v < 2 ^ 64 ∧ I_OUT.assign d v < 2 ^ 64 ∧ I_LHS.assign d v < 2 ^ 64 ∧
      I_RHS.assign d v < 2 ^ 64 ∧ IMM.assign d v < 2 ^ 64 ∧
      JUMP_TARGET.assign d t < 2 ^ 64) := by
  refine ⟨?_, ?_, ?_, ?_⟩
  · intro d v hv
    simp only [JUMP_TARGET_eq, OP_eq, I_OUT_eq, I_LHS_eq, I_RHS_eq, IMM_eq, OP_assign_eq,
      I_OUT_assign_eq, I_LHS_assign_eq, I_RHS_assign_eq]
    refine ⟨⟨?_, ?_, ?_, ?_, ?_, ?_⟩, ⟨?_, ?_, ?_, ?_, ?_, ?_⟩, ⟨?_, ?_, ?_, ?_, ?_, ?_⟩,
      ⟨?_, ?_, ?_, ?_, ?_, ?_⟩⟩ <;> first | omega | (congr 1; omega)
  · intro d t hlo hhi
    have hb := bitsOfInt32_lt t
    have hr := int32OfBits_bitsOfInt32 t (by norm_num at hlo; exact hlo)
      (by norm_num at hhi; exact hhi)
    simp only [JUMP_TARGET_eq, OP_eq, I_OUT_eq, I_LHS_eq, I_RHS_eq, JUMP_TARGET_assign_eq]
    refine ⟨?_, ?_, ?_, ?_, ?_⟩
    · have : (d - d / 4294967296 % 4294967296 * 4294967296
          + bitsOfInt32 t % 4294967296 * 4294967296) / 4294967296 % 4294967296
          = bitsOfInt32 t := by omega
      rw [this, hr]
    all_goals omega
  · intro d w hw
    simp only [OP_eq, I_OUT_eq, I_LHS_eq, I_RHS_eq, IMM_eq, IMM_assign_eq]
    refine ⟨?_, ?_, ?_, ?_, ?_⟩ <;> omega
  · intro d v t hd
    have hb := bitsOfInt32_lt t
    simp only [OP_assign_eq, I_OUT_assign_eq, I_LHS_assign_eq, I_RHS_assign_eq,
      IMM_assign_eq, JUMP_TARGET_assign_eq]
    refine ⟨?_, ?_, ?_, ?_, ?_, ?_⟩ <;> omega

/-- C10, at the operation clause `0x3F80000003020412` (`MIN_LHS_RHS`, out 4,
lhs 2, rhs 3): assigning `GPU_OP_JUMP` (1) to `OP` and then `-7` to
`JUMP_TARGET` reads back `1` and `-7` and keeps the register bytes. -/
theorem clause_assign_roundtrip_frame_witness :
    ((1 : Nat) < 256 ∧ OP (OP.assign 0x3F80000003020412 1) = 1 ∧
      I_OUT (OP.assign 0x3F80000003020412 1) = I_OUT 0x3F80000003020412) ∧
    ((-2 ^ 31 : Int) ≤ -7 ∧ (-7 : Int) < 2 ^ 31 ∧
      JUMP_TARGET (JUMP_TARGET.assign (OP.assign 0x3F80000003020412 1) (-7)) = -7 ∧
      I_OUT (JUMP_TARGET.assign (OP.assign 0x3F80000003020412 1) (-7))
        = I_OUT (OP.assign 0x3F80000003020412 1)) ∧
    ((0x40000000 : Nat) < 2 ^ 32 ∧ IMM (IMM.assign 0x3F80000003020412 0x40000000) = 0x40000000) ∧
    ((0x3F80000003020412 : Nat) < 2 ^ 64 ∧ OP.assign 0x3F80000003020412 1 < 2 ^ 64) :=
  ⟨⟨by decide,
    (clause_assign_roundtrip_frame.1 0x3F80000003020412 1 (by decide)).1.1,
    (clause_assign_roundtrip_frame.1 0x3F80000003020412 1 (by decide)).1.2.1⟩,
   ⟨by decide, by decide,
    (clause_assign_roundtrip_frame.2.1 (OP.assign 0x3F80000003020412 1) (-7)
      (by decide) (by decide)).1,
    (clause_assign_roundtrip_frame.2.1 (OP.assign 0x3F80000003020412 1) (-7)
      (by decide) (by decide)).2.2.1⟩,
   ⟨by decide, (clause_assign_roundtrip_frame.2.2.1 0x3F80000003020412 0x40000000
      (by decide)).1⟩,
   ⟨by decide, (clause_assign_roundtrip_frame.2.2.2 0x3F80000003020412 1 0
      (by decide)).1⟩⟩

/-! ## The opcode enumeration -/

open mpr

/-- C3, as stated, fails: the unary opcodes of the enumeration are not 10 in
number, whether they are taken by their identifiers (one operand, not a copy)
or by the block of opcode.h they stand in. -/
theorem unary_opcodes_not_ten :
    ¬ (unaryOpcodes.length = 10) ∧ ¬ ((blockOps .unary).length = 10) := by
  decide

/-- C3, amended. The opcode enumeration contains exactly 11 unary opcodes,
each operating on `lhs` only: the `_LHS` forms of SQUARE, SQRT, NEG, SIN,
COS, ASIN, ACOS, ATAN, EXP, ABS and LOG. -/
theorem unary_opcodes_eleven :
    unaryOpcodes =
      [.GPU_OP_SQUARE_LHS, .GPU_OP_SQRT_LHS, .GPU_OP_NEG_LHS, .GPU_OP_SIN_LHS,
       .GPU_OP_COS_LHS, .GPU_OP_ASIN_LHS, .GPU_OP_ACOS_LHS, .GPU_OP_ATAN_LHS,
       .GPU_OP_EXP_LHS, .GPU_OP_ABS_LHS, .GPU_OP_LOG_LHS] ∧
    unaryOpcodes.length = 11 ∧
    unaryOpcodes.Nodup ∧
    unaryOpcodes.map Opcode.form =
      [(.SQUARE, [.LHS]), (.SQRT, [.LHS]), (.NEG, [.LHS]), (.SIN, [.LHS]),
       (.COS, [.LHS]), (.ASIN, [.LHS]), (.ACOS, [.LHS]), (.ATAN, [.LHS]),
       (.EXP, [.LHS]), (.ABS, [.LHS]), (.LOG, [.LHS])] ∧
    blockOps .unary = unaryOpcodes ∧
    (∀ o : Opcode, o ∈ unaryOpcodes ↔ (o.operands = [.LHS] ∧ o.mnemonic ≠ .COPY)) := by
  refine ⟨by decide, by decide, by decide, by decide, by decide, ?_⟩
  intro o
  cases o <;> decide

/-- C4. Apart from the unary opcodes the enumeration consists of exactly: the
`JUMP` meta-op; 8 commutative opcodes, ADD, MUL, MIN, MAX each in an `LHS_IMM`
and an `LHS_RHS` form; 6 non-commutative opcodes, SUB and DIV each in
`LHS_IMM`, `IMM_RHS` and `LHS_RHS` forms; 3 copy opcodes `COPY_IMM`,
`COPY_LHS`, `COPY_RHS`.  The enumeration is `GPU_OP_INVALID` followed by
these classes and the unary class, every enumerator other than
`GPU_OP_INVALID` is in exactly one class, and no identifier (operation with
operand form) occurs twice. -/
theorem opcode_classes_closed :
    blockOps .metaOp = [.GPU_OP_JUMP] ∧
    ((blockOps .commutative).length = 8 ∧
      (blockOps .commutative).map Opcode.form =
        List.product [Mnemonic.ADD, .MUL, .MIN, .MAX] [[Operand.LHS, .IMM], [.LHS, .RHS]]) ∧
    ((blockOps .nonCommutative).length = 6 ∧
      (blockOps .nonCommutative).map Opcode.form =
        List.product [Mnemonic.SUB, .DIV]
          [[Operand.LHS, .IMM], [.IMM, .RHS], [.LHS, .RHS]]) ∧
    (blockOps .copyOnly = [.GPU_OP_COPY_IMM, .GPU_OP_COPY_LHS, .GPU_OP_COPY_RHS] ∧
      (blockOps .copyOnly).map Opcode.form =
        [(.COPY, [.IMM]), (.COPY, [.LHS]), (.COPY, [.RHS])]) ∧
    blockOps .invalid = [.GPU_OP_INVALID] ∧
    enumerators.map Enumerator.op =
      blockOps .invalid ++ blockOps .metaOp ++ blockOps .unary ++ blockOps .commutative
        ++ blockOps .nonCommutative ++ blockOps .copyOnly ∧
    (enumerators.length = 30 ∧ (enumerators.map Enumerator.op).Nodup) ∧
    (∀ o : Opcode, o ∈ enumerators.map Enumerator.op) ∧
    (∀ (o : Opcode) (b : Block), o ∈ blockOps b ↔ o.block = b) ∧
    (∀ o : Opcode, o ≠ .GPU_OP_INVALID ↔
      (o.block = .metaOp ∨ o.block = .unary ∨ o.block = .commutative ∨
        o.block = .nonCommutative ∨ o.block = .copyOnly)) ∧
    (∀ o : Opcode, o.block = .unary ↔ o.isUnary = true) ∧
    (enumerators.map (fun e => e.op.form)).Nodup := by
  refine ⟨by decide, by decide, by decide, by decide, by decide, by decide, by decide,
    ?_, ?_, ?_, ?_, by decide⟩
  · intro o; cases o <;> decide
  · intro o b; cases o <;> cases b <;> decide
  · intro o; cases o <;> decide
  · intro o; cases o <;> decide

/-- C5. The opcodes are numbered consecutively from `GPU_OP_INVALID = 0` and
`GPU_OP_JUMP = 1`, every later enumerator has the value written in its
trailing comment (`GPU_OP_SQUARE_LHS = 2` up to `GPU_OP_COPY_RHS = 29`), the
values are pairwise distinct and below 256, and an opcode stored in the
clause's `op` byte, or converted to `uint8_t`, reads back as the same
opcode. -/
theorem opcode_values_consecutive :
    Opcode.toNat .GPU_OP_INVALID = 0 ∧
    Opcode.toNat .GPU_OP_JUMP = 1 ∧
    Opcode.toNat .GPU_OP_SQUARE_LHS = 2 ∧
    Opcode.toNat .GPU_OP_COPY_RHS = 29 ∧
    enumValues.map Prod.snd = List.range 30 ∧
    enumValues.map Prod.fst = enumerators.map Enumerator.op ∧
    (enumerators.drop 2).map (fun e => e.comment) =
      (enumerators.drop 2).map (fun e => some e.op.toNat) ∧
    (enumerators.take 2).map (fun e => e.comment) = [none, none] ∧
    (∀ o p : Opcode, o.toNat = p.toNat ↔ o = p) ∧
    (∀ o : Opcode, o.toNat < 256 ∧ o.toNat % 256 = o.toNat) ∧
    (∀ o : Opcode, Opcode.ofNat? (o.toNat % 256) = some o) ∧
    (∀ (d : Nat) (o : Opcode), OP (OP.assign d o.toNat) = o.toNat ∧
      Opcode.ofNat? (OP (OP.assign d o.toNat)) = some o) := by
  have hlt : ∀ o : Opcode, o.toNat < 256 := by
    intro o; cases o <;> decide
  have hof : ∀ o : Opcode, Opcode.ofNat? o.toNat = some o := by
    intro o; cases o <;> decide
  have hrt : ∀ (d : Nat) (o : Opcode), OP (OP.assign d o.toNat) = o.toNat := by
    intro d o
    have := hlt o
    rw [OP_eq, OP_assign_eq]
    omega
  refine ⟨by decide, by decide, by decide, by decide, by decide, by decide, by decide,
    by decide, ?_, ?_, ?_, ?_⟩
  · intro o p
    constructor
    · intro h
      have h1 := hof o
      rw [h, hof p] at h1
      exact (Option.some.inj h1).symm
    · intro h; rw [h]
  · intro o
    have := hlt o
    exact ⟨this, Nat.mod_eq_of_lt this⟩
  · intro o
    rw [Nat.mod_eq_of_lt (hlt o)]
    exact hof o
  · intro d o
    rw [hrt d o]
    exact ⟨rfl, hof o⟩

set_option maxRecDepth 100000 in
theorem opKind_table :
    ∀ n : Nat, n < 256 →
      ((opKind n = .invalid ↔ n = 0) ∧ (opKind n = .jump ↔ n = 1) ∧
        (opKind n = .operation ↔ (2 ≤ n ∧ n ≤ 29)) ∧
        (opKind n = .corrupt ↔ (30 ≤ n ∧ n ≤ 255))) := by
  decide

/-- C6. The opcode byte alone tells the two clause layouts apart: for every
clause value exactly one of `OP = 0` (invalid), `OP = 1` (jump), `2 <= OP <=
29` (operation) and `30 <= OP <= 255` (no enumerator) holds, the kind of the
clause is the one that holds, it is the same for two clauses with the same
opcode byte, and no assignment to the bytes 4..7 or to a register byte
changes it; no clause is both a jump and an operation. -/
theorem opcode_byte_disambiguates :
    (∀ d : Nat,
      (clauseKind d = .invalid ↔ OP d = 0) ∧
      (clauseKind d = .jump ↔ OP d = 1) ∧
      (clauseKind d = .operation ↔ (2 ≤ OP d ∧ OP d ≤ 29)) ∧
      (clauseKind d = .corrupt ↔ (30 ≤ OP d ∧ OP d ≤ 255)) ∧
      (OP d = 0 ∨ OP d = 1 ∨ (2 ≤ OP d ∧ OP d ≤ 29) ∨ (30 ≤ OP d ∧ OP d ≤ 255)) ∧
      ¬ (clauseKind d = .jump ∧ clauseKind d = .operation)) ∧
    (∀ d : Nat,
      (clauseKind d = .invalid ↔ Opcode.ofNat? (OP d) = some .GPU_OP_INVALID) ∧
      (clauseKind d = .jump ↔ Opcode.ofNat? (OP d) = some .GPU_OP_JUMP) ∧
      (clauseKind d = .operation ↔
        ∃ o : Opcode, Opcode.ofNat? (OP d) = some o ∧ o ≠ .GPU_OP_INVALID ∧ o ≠ .GPU_OP_JUMP) ∧
      (clauseKind d = .corrupt ↔ Opcode.ofNat? (OP d) = none)) ∧
    (∀ o : Opcode, (o = .GPU_OP_INVALID ↔ o.toNat = 0) ∧ (o = .GPU_OP_JUMP ↔ o.toNat = 1) ∧
      ((o ≠ .GPU_OP_INVALID ∧ o ≠ .GPU_OP_JUMP) ↔ (2 ≤ o.toNat ∧ o.toNat ≤ 29))) ∧
    (∀ d e : Nat, OP d = OP e → clauseKind d = clauseKind e) ∧
    (∀ (d w : Nat) (t : Int),
      clauseKind (IMM.assign d w) = clauseKind d ∧
      clauseKind (JUMP_TARGET.assign d t) = clauseKind d ∧
      clauseKind (I_OUT.assign d w) = clauseKind d ∧
      clauseKind (I_LHS.assign d w) = clauseKind d ∧
      clauseKind (I_RHS.assign d w) = clauseKind d) := by
  have hop : ∀ d : Nat, OP d < 256 := by
    intro d; rw [OP_eq]; omega
  refine ⟨?_, ?_, ?_, ?_, ?_⟩
  · intro d
    obtain ⟨h0, h1, h2, h3⟩ := opKind_table (OP d) (hop d)
    have h := hop d
    refine ⟨h0, h1, h2, h3, by omega, ?_⟩
    rintro ⟨hj, ho⟩
    unfold clauseKind at hj ho
    rw [hj] at ho
    exact ClauseKind.noConfusion ho
  · intro d
    unfold clauseKind opKind
    cases hq : Opcode.ofNat? (OP d) with
    | none => simp
    | some o => cases o <;> simp
  · intro o
    cases o <;> decide
  · intro d e h
    unfold clauseKind
    rw [h]
  · intro d w t
    have hb := bitsOfInt32_lt t
    unfold clauseKind
    simp only [OP_eq, IMM_assign_eq, JUMP_TARGET_assign_eq, I_OUT_assign_eq,
      I_LHS_assign_eq, I_RHS_assign_eq]
    refine ⟨?_, ?_, ?_, ?_, ?_⟩ <;> congr 1 <;> omega

/-- C6, at two clauses with opcode byte 1 and different payloads: both are
jump clauses. -/
theorem opcode_byte_disambiguates_witness :
    OP 0x0000000000000001 = OP 0xFFFFFFF900030201 ∧
    clauseKind 0x0000000000000001 = clauseKind 0xFFFFFFF900030201 :=
  ⟨by decide,
   opcode_byte_disambiguates.2.2.2.1 0x0000000000000001 0xFFFFFFF900030201 (by decide)⟩

/-! ## The interval type -/

/-- C7, as stated, fails: `Interval(f)` at `f = NaN` stores NaN in both
bounds, and `lower <= upper` is false for it. -/
theorem interval_of_nan_not_ordered :
    (Interval.ofFloat (FloatVal.nan : FloatVal Int)).lower = FloatVal.nan ∧
    (Interval.ofFloat (FloatVal.nan : FloatVal Int)).upper = FloatVal.nan ∧
    ¬ ((Interval.ofFloat (FloatVal.nan : FloatVal Int)).lower
        ≤ (Interval.ofFloat (FloatVal.nan : FloatVal Int)).upper) := by
  decide

/-- C7, amended. The `Interval` constructors store their arguments as given:
for every `f`, `Interval(f)` has `lower()` and `upper()` both equal to `f`,
and it satisfies `lower <= upper` exactly when `f` is not NaN, so for every
number; for every `a`, `b`, `Interval(a, b)` has `lower() = a` and
`upper() = b` whatever their order, so `lower <= upper` holds for it exactly
when `a <= b`, and for `a > b` the result has `lower() > upper()`.  The
stored values come back unchanged over any carrier of values. -/
theorem interval_constructors_store_verbatim (F : Type) [LinearOrder F] :
    (∀ f : FloatVal F, (Interval.ofFloat f).lower = f ∧ (Interval.ofFloat f).upper = f ∧
      ((Interval.ofFloat f).lower ≤ (Interval.ofFloat f).upper ↔ f ≠ FloatVal.nan)) ∧
    (∀ x : F, (Interval.ofFloat (FloatVal.num x)).lower
      ≤ (Interval.ofFloat (FloatVal.num x)).upper) ∧
    (∀ a b : FloatVal F, (Interval.ofPair a b).lower = a ∧ (Interval.ofPair a b).upper = b ∧
      ((Interval.ofPair a b).lower ≤ (Interval.ofPair a b).upper ↔ a ≤ b)) ∧
    (∀ a b : FloatVal F, a > b →
      (Interval.ofPair a b).lower > (Interval.ofPair a b).upper ∧
      ¬ ((Interval.ofPair a b).lower ≤ (Interval.ofPair a b).upper)) ∧
    (∀ (G : Type) (f a b : G),
      (Interval.ofFloat f).lower = f ∧ (Interval.ofFloat f).upper = f ∧
      (Interval.ofPair a b).lower = a ∧ (Interval.ofPair a b).upper = b) := by
  refine ⟨?_, ?_, ?_, ?_, ?_⟩
  · intro f
    refine ⟨rfl, rfl, ?_⟩
    cases f with
    | nan =>
      constructor
      · intro h; exact absurd h (fun h => h)
      · intro h; exact absurd rfl h
    | num x =>
      constructor
      · intro _ h; exact FloatVal.noConfusion h
      · intro _; exact le_refl x
  · intro x
    exact le_refl x
  · intro a b
    exact ⟨rfl, rfl, Iff.rfl⟩
  · intro a b h
    refine ⟨h, ?_⟩
    cases a with
    | nan =>
      cases b with
      | nan => exact fun h2 => h2
      | num y => exact fun h2 => h2
    | num x =>
      cases b with
      | nan => exact fun h2 => h2
      | num y =>
        have hlt : y < x := h
        intro h2
        have hle : x ≤ y := h2
        exact absurd hle (not_le.mpr hlt)
  · intro G f a b
    exact ⟨rfl, rfl, rfl, rfl⟩

/-- C7 amended, at `Interval(3, -1)`: the lower bound 3 is above the upper
bound -1 and `lower <= upper` is false. -/
theorem interval_constructors_store_verbatim_witness :
    (FloatVal.num (3 : Int)) > FloatVal.num (-1) ∧
    (Interval.ofPair (FloatVal.num (3 : Int)) (FloatVal.num (-1))).lower
      > (Interval.ofPair (FloatVal.num (3 : Int)) (FloatVal.num (-1))).upper ∧
    ¬ ((Interval.ofPair (FloatVal.num (3 : Int)) (FloatVal.num (-1))).lower
      ≤ (Interval.ofPair (FloatVal.num (3 : Int)) (FloatVal.num (-1))).upper) :=
  ⟨by decide,
   (interval_constructors_store_verbatim Int).2.2.2.1 (FloatVal.num 3) (FloatVal.num (-1))
     (by decide)⟩

/-- C8. Choice correctness of interval `min`: for intervals `X`, `Y` with
`lower <= upper`, the choice is `LHS_ONLY` if `X.upper < Y.lower`, `RHS_ONLY`
if `Y.upper < X.lower`, and `BOTH` otherwise, in particular whenever the
ranges overlap; when the choice is `LHS_ONLY`, `min(a, b) = a` for every `a`
in `X` and `b` in `Y`, and when it is `RHS_ONLY`, `min(a, b) = b`. -/
theorem min_choice_correct (F : Type) [LinearOrder F] (X Y : Interval F)
    (hX : X.WF) (hY : Y.WF) :
    (X.upper < Y.lower → X.min_choice Y = .LHS_ONLY) ∧
    (Y.upper < X.lower → X.min_choice Y = .RHS_ONLY) ∧
    (¬ X.upper < Y.lower → ¬ Y.upper < X.lower → X.min_choice Y = .BOTH) ∧
    (X.overlaps Y → X.min_choice Y = .BOTH) ∧
    (X.min_choice Y = .LHS_ONLY →
      ∀ a b : F, X.contains a → Y.contains b → min a b = a) ∧
    (X.min_choice Y = .RHS_ONLY →
      ∀ a b : F, X.contains a → Y.contains b → min a b = b) := by
  unfold Interval.WF at hX hY
  refine ⟨?_, ?_, ?_, ?_, ?_, ?_⟩
  · intro h
    simp [Interval.min_choice, h]
  · intro h
    have hn : ¬ X.upper < Y.lower := by
      intro hc
      exact absurd (lt_of_lt_of_le (lt_of_le_of_lt hX hc) hY) (not_lt.mpr (le_of_lt h))
    simp [Interval.min_choice, hn, h]
  · intro h1 h2
    simp [Interval.min_choice, h1, h2]
  · rintro ⟨h1, h2⟩
    simp [Interval.min_choice, not_lt.mpr h1, not_lt.mpr h2]
  · intro hc a b ha hb
    have h : X.upper < Y.lower := by
      by_contra hn
      unfold Interval.min_choice at hc
      rw [if_neg hn] at hc
      split at hc <;> exact Choice.noConfusion hc
    exact min_eq_left (le_of_lt (lt_of_le_of_lt ha.2 (lt_of_lt_of_le h hb.1)))
  · intro hc a b ha hb
    have h : Y.upper < X.lower := by
      unfold Interval.min_choice at hc
      split at hc
      · exact Choice.noConfusion hc
      · split at hc
        · assumption
        · exact Choice.noConfusion hc
    exact min_eq_right (le_of_lt (lt_of_le_of_lt hb.2 (lt_of_lt_of_le h ha.1)))

/-- C8, at `X = [2, 3]`, `Y = [5, 6]` (scenario B of the spec): the choice is
`LHS_ONLY` and `min(3, 5) = 3`. -/
theorem min_choice_correct_witness :
    (Interval.ofPair (2 : Int) 3).WF ∧ (Interval.ofPair (5 : Int) 6).WF ∧
    (Interval.ofPair (2 : Int) 3).min_choice (Interval.ofPair 5 6) = .LHS_ONLY ∧
    min (3 : Int) 5 = 3 :=
  ⟨by decide, by decide,
   (min_choice_correct Int (Interval.ofPair 2 3) (Interval.ofPair 5 6)
      (by decide) (by decide)).1 (by decide),
   (min_choice_correct Int (Interval.ofPair 2 3) (Interval.ofPair 5 6)
      (by decide) (by decide)).2.2.2.2.1 (by decide) 3 5 (by decide) (by decide)⟩

/-- C9, as stated, fails: with `X = [2, 3]` and `Y = [5, 6]`, both with
`lower <= upper` and `X.upper < Y.lower`, the member `a = 2` of `X` and the
member `b = 5` of `Y` have `max(a, b) = 5`, not `a`, and the choice of `max`
is `RHS_ONLY`, not `LHS_ONLY`.  Whatever `max` sets, no choice function makes
the claim true: none can give `LHS_ONLY` with "x always wins" whenever
`X.upper < Y.lower`. -/
theorem max_choice_claim_fails :
    ((Interval.ofPair (2 : Int) 3).WF ∧ (Interval.ofPair (5 : Int) 6).WF ∧
      (Interval.ofPair (2 : Int) 3).upper < (Interval.ofPair (5 : Int) 6).lower ∧
      (Interval.ofPair (2 : Int) 3).contains 2 ∧ (Interval.ofPair (5 : Int) 6).contains 5 ∧
      max (2 : Int) 5 = 5 ∧ max (2 : Int) 5 ≠ 2 ∧
      (Interval.ofPair (2 : Int) 3).max_choice (Interval.ofPair 5 6) = .RHS_ONLY ∧
      (Interval.ofPair (2 : Int) 3).max_choice (Interval.ofPair 5 6) ≠ .LHS_ONLY) ∧
    ¬ ∃ choice : Interval Int → Interval Int → Choice,
      ∀ X Y : Interval Int, X.WF → Y.WF → X.upper < Y.lower →
        choice X Y = .LHS_ONLY ∧
        ∀ a b : Int, X.contains a → Y.contains b → max a b = a := by
  refine ⟨by decide, ?_⟩
  rintro ⟨choice, h⟩
  have h1 := (h (Interval.ofPair 2 3) (Interval.ofPair 5 6) (by decide) (by decide)
    (by decide)).2 2 5 (by decide) (by decide)
  exact absurd h1 (by decide)

/-- C9, amended. For intervals `X`, `Y` with `lower <= upper`, `max` sets the
choice `LHS_ONLY` if `Y.upper < X.lower`, and in that case `x` always wins:
`max(a, b) = a` for every `a` in `X` and `b` in `Y`; it sets `RHS_ONLY` in the
reverse case `X.upper < Y.lower`, where `max(a, b) = b`; and `BOTH` otherwise,
in particular whenever the ranges overlap.  Whenever the choice is
`LHS_ONLY` (`RHS_ONLY`), `max(a, b) = a` (`= b`) on all members; and when
`X.upper < Y.lower`, `x` does not always win. -/
theorem max_choice_rule (F : Type) [LinearOrder F] (X Y : Interval F)
    (hX : X.WF) (hY : Y.WF) :
    (Y.upper < X.lower →
      X.max_choice Y = .LHS_ONLY ∧
      ∀ a b : F, X.contains a → Y.contains b → max a b = a) ∧
    (X.upper < Y.lower →
      X.max_choice Y = .RHS_ONLY ∧
      ∀ a b : F, X.contains a → Y.contains b → max a b = b) ∧
    (¬ Y.upper < X.lower → ¬ X.upper < Y.lower → X.max_choice Y = .BOTH) ∧
    (X.overlaps Y → X.max_choice Y = .BOTH) ∧
    (X.max_choice Y = .LHS_ONLY →
      ∀ a b : F, X.contains a → Y.contains b → max a b = a) ∧
    (X.max_choice Y = .RHS_ONLY →
      ∀ a b : F, X.contains a → Y.contains b → max a b = b) ∧
    (X.upper < Y.lower →
      ¬ ∀ a b : F, X.contains a → Y.contains b → max a b = a) := by
  unfold Interval.WF at hX hY
  have hleft : Y.upper < X.lower →
      ∀ a b : F, X.contains a → Y.contains b → max a b = a := by
    intro h a b ha hb
    exact max_eq_left (le_of_lt (lt_of_le_of_lt hb.2 (lt_of_lt_of_le h ha.1)))
  have hright : X.upper < Y.lower →
      ∀ a b : F, X.contains a → Y.contains b → max a b = b := by
    intro h a b ha hb
    exact max_eq_right (le_of_lt (lt_of_le_of_lt ha.2 (lt_of_lt_of_le h hb.1)))
  have hexcl : X.upper < Y.lower → ¬ Y.upper < X.lower := by
    intro h hc
    exact absurd (lt_of_lt_of_le (lt_of_le_of_lt hX h) hY) (not_lt.mpr (le_of_lt hc))
  refine ⟨?_, ?_, ?_, ?_, ?_, ?_, ?_⟩
  · intro h
    exact ⟨by simp [Interval.max_choice, h], hleft h⟩
  · intro h
    exact ⟨by simp [Interval.max_choice, hexcl h, h], hright h⟩
  · intro h1 h2
    simp [Interval.max_choice, h1, h2]
  · rintro ⟨h1, h2⟩
    simp [Interval.max_choice, not_lt.mpr h1, not_lt.mpr h2]
  · intro hc
    have h : Y.upper < X.lower := by
      by_contra hn
      unfold Interval.max_choice at hc
      rw [if_neg hn] at hc
      split at hc <;> exact Choice.noConfusion hc
    exact hleft h
  · intro hc
    have h : X.upper < Y.lower := by
      unfold Interval.max_choice at hc
      split at hc
      · exact Choice.noConfusion hc
      · split at hc
        · assumption
        · exact Choice.noConfusion hc
    exact hright h
  · intro h hall
    have ha : X.contains X.lower := ⟨le_refl _, hX⟩
    have hb : Y.contains Y.lower := ⟨le_refl _, hY⟩
    have h1 := hall X.lower Y.lower ha hb
    have h2 := hright h X.lower Y.lower ha hb
    have h3 : X.lower < Y.lower := lt_of_le_of_lt hX h
    rw [h2] at h1
    exact absurd h1 (ne_of_gt h3)

/-- C9 amended, at `X = [5, 6]`, `Y = [2, 3]`: the choice is `LHS_ONLY` and
`max(5, 3) = 5`; and at `X = [2, 3]`, `Y = [5, 6]`: the choice is `RHS_ONLY`
and `max(2, 5) = 5`. -/
theorem max_choice_rule_witness :
    ((Interval.ofPair (5 : Int) 6).WF ∧ (Interval.ofPair (2 : Int) 3).WF ∧
      (Interval.ofPair (5 : Int) 6).max_choice (Interval.ofPair 2 3) = .LHS_ONLY ∧
      max (5 : Int) 3 = 5) ∧
    ((Interval.ofPair (2 : Int) 3).max_choice (Interval.ofPair 5 6) = .RHS_ONLY ∧
      max (2 : Int) 5 = 5) :=
  ⟨⟨by decide, by decide,
    ((max_choice_rule Int (Interval.ofPair 5 6) (Interval.ofPair 2 3)
      (by decide) (by decide)).1 (by decide)).1,
    ((max_choice_rule Int (Interval.ofPair 5 6) (Interval.ofPair 2 3)
      (by decide) (by decide)).1 (by decide)).2 5 3 (by decide) (by decide)⟩,
   ⟨((max_choice_rule Int (Interval.ofPair 2 3) (Interval.ofPair 5 6)
      (by decide) (by decide)).2.1 (by decide)).1,
    ((max_choice_rule Int (Interval.ofPair 2 3) (Interval.ofPair 5 6)
      (by decide) (by decide)).2.1 (by decide)).2 2 5 (by decide) (by decide)⟩⟩

end MprMetal
